import Mathlib

/-!
# Verification of the Riverscapes data-exchange API client core

A shallow embedding of the reusable client core in
`src/pydex/classes/RiverscapesAPI.py` (class `RiverscapesAPI`), together with
theorems settling the specification's claims about it.

Modelling conventions:
* Timestamps are integer milliseconds (`Int`); `timedelta(milliseconds=1)`
  subtracts `1`.  `format_date`/`dateparse` round-trips are identities in this
  model (the helper module `riverscapes_helpers.py` is not part of the sources;
  its `RiverscapesProject.created_date` field is modelled from the spec as the
  record's creation timestamp).
* The remote search index is abstracted as a page function
  `pageFn : Int → Option Int → List RiverscapesProject` returning the page for
  a `[from, to]` window.  `serverPage` is the honest instance: a stable,
  date-descending dataset filtered by window and truncated to the page size.
* The `while` loop of `search` is embedded with an explicit iteration budget
  (`fuel`) that equals the loop's own termination measure
  `overall_total - outer_counter`; `searchLoop_fuel_irrel` shows every budget at
  least that measure computes the same result, which is the loop's termination
  argument.
-/

/-- One search-result record (projection of a remote resource).
Modelled from the spec: `ResultRecord` — the class `RiverscapesProject` lives in
`pydex/classes/riverscapes_helpers.py`, which is not among the sources; the only
field the client core reads is `created_date` (creation timestamp, here in
integer milliseconds) plus an opaque identity. -/
structure RiverscapesProject where
  projId : Nat
  created_date : Int
deriving Repr, DecidableEq

/-- The `from`-side of the window check: a record passes when no lower bound is
set, or its creation date is at or after the bound. -/
def fromOk (search_from_date : Option Int) (p : RiverscapesProject) : Bool :=
  match search_from_date with
  | none => true
  | some f => decide (f ≤ p.created_date)

/-- Window membership used by the search index for a `createdOn` filter
`{to, from}`. -/
def inWindow (search_to_date : Int) (search_from_date : Option Int)
    (p : RiverscapesProject) : Bool :=
  decide (p.created_date ≤ search_to_date) && fromOk search_from_date p

/-- Honest remote search index over a stable dataset `db` (sorted by
`created_date` descending): one page is the window-filtered dataset truncated
to `page_size` (the request always uses `offset = 0`). -/
def serverPage (db : List RiverscapesProject) (page_size : Nat)
    (search_to_date : Int) (search_from_date : Option Int) :
    List RiverscapesProject :=
  (db.filter (inWindow search_to_date search_from_date)).take page_size

/-- The early-stop guard of `search`:
`if max_results and max_results > 0 and outer_counter >= max_results`.
Python truthiness of an int is `≠ 0`, hence the first conjunct. -/
def capReached (max_results : Option Int) (outer_counter : Nat) : Bool :=
  match max_results with
  | none => false
  | some v => (v != 0) && decide (0 < v) && decide (v ≤ (outer_counter : Int))

/-- Result of the inner `for search_result in projects` loop of `search`:
the yielded records, the updated `outer_counter`, and whether the `return`
statement fired (cap reached). -/
structure PageRun where
  yields : List RiverscapesProject
  outer : Nat
  stopped : Bool
deriving Repr, DecidableEq

/-- The inner `for` loop of `search`: yield each record of the page, increment
the counter, and `return` as soon as the result cap is reached. -/
def yieldPage (max_results : Option Int) (outer_counter : Nat) :
    List RiverscapesProject → PageRun
  | [] => ⟨[], outer_counter, false⟩
  | p :: rest =>
    if capReached max_results (outer_counter + 1) then
      ⟨[p], outer_counter + 1, true⟩
    else
      let r := yieldPage max_results (outer_counter + 1) rest
      ⟨p :: r.yields, r.outer, r.stopped⟩

/-- Observable trace of one `search` run: the records yielded, and for every
page request the `to` boundary used and the page the server returned. -/
structure SearchRun where
  yields : List RiverscapesProject
  pages : List (Int × List RiverscapesProject)
deriving Repr, DecidableEq

/-- The `while outer_counter < overall_total and num_results > 0` loop of
`search`.  Per iteration: request one page in the current window, run the inner
`for` loop (`yieldPage`), and — unless the cap `return` fired — move the upper
boundary to the last record's creation date minus one millisecond and continue;
an empty page yields nothing and the loop exits on the re-checked guard.
`fuel` is the explicit iteration budget; the loop's own measure
`overall_total - outer_counter` always suffices (`searchLoop_fuel_irrel`). -/
def searchLoop (pageFn : Int → Option Int → List RiverscapesProject)
    (overall_total : Nat) (max_results : Option Int)
    (search_from_date : Option Int) :
    Nat → Int → Nat → SearchRun
  | 0, _, _ => ⟨[], []⟩
  | fuel + 1, search_to_date, outer_counter =>
    if outer_counter < overall_total then
      let projects := pageFn search_to_date search_from_date
      let pr := yieldPage max_results outer_counter projects
      if pr.stopped then
        ⟨pr.yields, [(search_to_date, projects)]⟩
      else
        match projects.getLast? with
        | none => ⟨pr.yields, [(search_to_date, projects)]⟩
        | some project =>
          let r2 := searchLoop pageFn overall_total max_results
            search_from_date fuel (project.created_date - 1) pr.outer
          ⟨pr.yields ++ r2.yields, (search_to_date, projects) :: r2.pages⟩
    else ⟨[], []⟩

/-- The probe request's window check: the caller's original `createdOn`
range, in which `to` may itself be absent. -/
def probeWindow (callerTo callerFrom : Option Int) (p : RiverscapesProject) : Bool :=
  (match callerTo with
   | none => true
   | some t => decide (p.created_date ≤ t)) && fromOk callerFrom p

/-- `RiverscapesAPI.search` against the honest index `serverPage db page_size`:
probe for `overall_total`, initialise the window (`to` from the caller or
`now_date`, `from` from the caller or unbounded), then run the page loop. -/
def search (db : List RiverscapesProject) (page_size : Nat)
    (max_results : Option Int) (now_date : Int)
    (callerTo callerFrom : Option Int) : SearchRun :=
  let overall_total := (db.filter (probeWindow callerTo callerFrom)).length
  let search_to_date := match callerTo with | some t => t | none => now_date
  searchLoop (serverPage db page_size) overall_total max_results callerFrom
    overall_total search_to_date 0

/-- Relation between consecutive page requests of one search: the earlier
request's page is non-empty, and the later request's boundary is exactly the
earlier page's last record's creation date minus one millisecond, strictly
below the earlier boundary. -/
def pageStep (a b : Int × List RiverscapesProject) : Prop :=
  ∃ p, a.2.getLast? = some p ∧ b.1 = p.created_date - 1 ∧ b.1 < a.1

-- ### Basic lemmas about `yieldPage`

theorem yieldPage_outer_eq (max_results : Option Int) :
    ∀ (l : List RiverscapesProject) (c : Nat),
      (yieldPage max_results c l).outer = c + (yieldPage max_results c l).yields.length := by
  intro l
  induction l with
  | nil => intro c; simp [yieldPage]
  | cons p rest ih =>
    intro c
    rw [yieldPage]
    by_cases h : capReached max_results (c + 1) = true
    · rw [if_pos h]; simp
    · rw [if_neg h]
      have := ih (c + 1)
      simp only [List.length_cons]
      omega

theorem yieldPage_outer_lt (max_results : Option Int)
    (l : List RiverscapesProject) (c : Nat) (hl : l ≠ []) :
    c < (yieldPage max_results c l).outer := by
  cases l with
  | nil => exact absurd rfl hl
  | cons p rest =>
    rw [yieldPage]
    by_cases h : capReached max_results (c + 1) = true
    · rw [if_pos h]; simp
    · rw [if_neg h]
      have := yieldPage_outer_eq max_results rest (c + 1)
      simp only []
      omega

theorem yieldPage_not_stopped (max_results : Option Int) :
    ∀ (l : List RiverscapesProject) (c : Nat),
      (yieldPage max_results c l).stopped = false →
      (yieldPage max_results c l).yields = l := by
  intro l
  induction l with
  | nil => intro c _; simp [yieldPage]
  | cons p rest ih =>
    intro c hstop
    rw [yieldPage] at hstop ⊢
    by_cases h : capReached max_results (c + 1) = true
    · rw [if_pos h] at hstop; simp at hstop
    · rw [if_neg h] at hstop ⊢
      dsimp only at hstop ⊢
      rw [ih (c + 1) hstop]

-- ### Lemmas about the page trace of `searchLoop`

theorem mem_of_getLastEq {α : Type} {l : List α} {a : α}
    (h : l.getLast? = some a) : a ∈ l := by
  obtain ⟨hne, rfl⟩ := List.mem_getLast?_eq_getLast h
  exact List.getLast_mem hne

theorem searchLoop_pages_head
    (pageFn : Int → Option Int → List RiverscapesProject)
    (overall_total : Nat) (max_results : Option Int)
    (search_from_date : Option Int) :
    ∀ (fuel : Nat) (search_to_date : Int) (outer_counter : Nat)
      (x : Int × List RiverscapesProject),
      (searchLoop pageFn overall_total max_results search_from_date
        fuel search_to_date outer_counter).pages.head? = some x →
      x = (search_to_date, pageFn search_to_date search_from_date) := by
  intro fuel toD k x hx
  cases fuel with
  | zero => simp [searchLoop] at hx
  | succ fuel =>
    rw [searchLoop] at hx
    by_cases hk : k < overall_total
    · rw [if_pos hk] at hx
      dsimp only at hx
      by_cases hstop :
          (yieldPage max_results k (pageFn toD search_from_date)).stopped = true
      · rw [if_pos hstop] at hx
        simp at hx
        exact hx.symm
      · rw [if_neg hstop] at hx
        cases hgl : (pageFn toD search_from_date).getLast? with
        | none => rw [hgl] at hx; simp at hx; exact hx.symm
        | some project => rw [hgl] at hx; simp at hx; exact hx.symm
    · rw [if_neg hk] at hx
      simp at hx

theorem searchLoop_pages_chain
    (pageFn : Int → Option Int → List RiverscapesProject)
    (hhon : ∀ (t : Int) (fro : Option Int) (p : RiverscapesProject),
      p ∈ pageFn t fro → p.created_date ≤ t)
    (overall_total : Nat) (max_results : Option Int)
    (search_from_date : Option Int) :
    ∀ (fuel : Nat) (search_to_date : Int) (outer_counter : Nat),
      List.Chain' pageStep
        (searchLoop pageFn overall_total max_results search_from_date
          fuel search_to_date outer_counter).pages := by
  intro fuel
  induction fuel with
  | zero => intro toD k; simp [searchLoop]
  | succ fuel ih =>
    intro toD k
    rw [searchLoop]
    by_cases hk : k < overall_total
    · rw [if_pos hk]
      dsimp only
      by_cases hstop :
          (yieldPage max_results k (pageFn toD search_from_date)).stopped = true
      · rw [if_pos hstop]
        exact List.chain'_singleton _
      · rw [if_neg hstop]
        cases hgl : (pageFn toD search_from_date).getLast? with
        | none => exact List.chain'_singleton _
        | some project =>
          dsimp only
          refine List.chain'_cons'.mpr ⟨?_, ih _ _⟩
          intro y hy
          have hy' := searchLoop_pages_head pageFn overall_total max_results
            search_from_date fuel (project.created_date - 1)
            (yieldPage max_results k (pageFn toD search_from_date)).outer y
            (by simpa using hy)
          refine ⟨project, hgl, ?_, ?_⟩
          · rw [hy']
          · rw [hy']
            have hmem := mem_of_getLastEq hgl
            have := hhon toD search_from_date project hmem
            simp only
            omega
    · rw [if_neg hk]
      simp

theorem serverPage_honest (db : List RiverscapesProject) (page_size : Nat)
    (t : Int) (fro : Option Int) (p : RiverscapesProject)
    (hp : p ∈ serverPage db page_size t fro) : p.created_date ≤ t := by
  have hmem : p ∈ db.filter (inWindow t fro) := List.mem_of_mem_take hp
  have := List.of_mem_filter hmem
  simp only [inWindow, Bool.and_eq_true, decide_eq_true_eq] at this
  exact this.1

/-- C1: within one logical search, the date-window upper boundary used for each
successive page request is strictly earlier than the previous one; after every
non-empty page the next window's `to` equals the last yielded record's creation
timestamp minus 1 millisecond, which is strictly less than the current `to`.
Formalised as: the page-request trace of every `search` run is a `pageStep`
chain (previous page non-empty, next boundary = its last record's
`created_date - 1`, strictly below the previous boundary). -/
theorem search_page_boundaries_strictly_decrease
    (db : List RiverscapesProject) (page_size : Nat) (max_results : Option Int)
    (now_date : Int) (callerTo callerFrom : Option Int) :
    List.Chain' pageStep
      (search db page_size max_results now_date callerTo callerFrom).pages := by
  unfold search
  exact searchLoop_pages_chain (serverPage db page_size)
    (fun t fro p hp => serverPage_honest db page_size t fro p hp) _ _ _ _ _ _

-- ### Termination-shaped lemmas about `searchLoop`

theorem searchLoop_ne_nil_outer_lt (max_results : Option Int)
    (projects : List RiverscapesProject) (k : Nat) (project : RiverscapesProject)
    (hgl : projects.getLast? = some project) :
    k < (yieldPage max_results k projects).outer :=
  yieldPage_outer_lt max_results projects k
    (List.ne_nil_of_mem (mem_of_getLastEq hgl))

theorem searchLoop_zero_total
    (pageFn : Int → Option Int → List RiverscapesProject)
    (max_results : Option Int) (search_from_date : Option Int)
    (fuel : Nat) (search_to_date : Int) (outer_counter : Nat) :
    searchLoop pageFn 0 max_results search_from_date
      fuel search_to_date outer_counter = ⟨[], []⟩ := by
  cases fuel with
  | zero => rfl
  | succ fuel =>
    rw [searchLoop]
    rw [if_neg (by omega)]

theorem searchLoop_empty_page
    (pageFn : Int → Option Int → List RiverscapesProject)
    (overall_total : Nat) (max_results : Option Int)
    (search_from_date : Option Int)
    (fuel : Nat) (search_to_date : Int) (outer_counter : Nat)
    (hpage : pageFn search_to_date search_from_date = []) :
    (searchLoop pageFn overall_total max_results search_from_date
      fuel search_to_date outer_counter).yields = [] := by
  cases fuel with
  | zero => rfl
  | succ fuel =>
    rw [searchLoop]
    by_cases hk : outer_counter < overall_total
    · rw [if_pos hk]
      dsimp only
      rw [hpage]
      simp [yieldPage]
    · rw [if_neg hk]

theorem searchLoop_pages_le
    (pageFn : Int → Option Int → List RiverscapesProject)
    (overall_total : Nat) (max_results : Option Int)
    (search_from_date : Option Int) :
    ∀ (fuel : Nat) (search_to_date : Int) (outer_counter : Nat),
      (searchLoop pageFn overall_total max_results search_from_date
        fuel search_to_date outer_counter).pages.length ≤
        overall_total - outer_counter := by
  intro fuel
  induction fuel with
  | zero => intro toD k; simp [searchLoop]
  | succ fuel ih =>
    intro toD k
    rw [searchLoop]
    by_cases hk : k < overall_total
    · rw [if_pos hk]
      dsimp only
      by_cases hstop :
          (yieldPage max_results k (pageFn toD search_from_date)).stopped = true
      · rw [if_pos hstop]
        simp only [List.length_singleton]
        omega
      · rw [if_neg hstop]
        cases hgl : (pageFn toD search_from_date).getLast? with
        | none =>
          simp only [List.length_singleton]
          omega
        | some project =>
          dsimp only
          simp only [List.length_cons]
          have hlt := searchLoop_ne_nil_outer_lt max_results _ k project hgl
          have hrec := ih (project.created_date - 1)
            (yieldPage max_results k (pageFn toD search_from_date)).outer
          omega
    · rw [if_neg hk]
      simp

theorem searchLoop_fuel_irrel
    (pageFn : Int → Option Int → List RiverscapesProject)
    (overall_total : Nat) (max_results : Option Int)
    (search_from_date : Option Int) :
    ∀ (f1 f2 : Nat) (search_to_date : Int) (outer_counter : Nat),
      overall_total - outer_counter ≤ f1 →
      overall_total - outer_counter ≤ f2 →
      searchLoop pageFn overall_total max_results search_from_date
        f1 search_to_date outer_counter =
      searchLoop pageFn overall_total max_results search_from_date
        f2 search_to_date outer_counter := by
  intro f1
  induction f1 with
  | zero =>
    intro f2 toD k h1 h2
    have hk : ¬ k < overall_total := by omega
    cases f2 with
    | zero => rfl
    | succ f2 =>
      rw [searchLoop, searchLoop, if_neg hk]
  | succ f1 ih =>
    intro f2 toD k h1 h2
    by_cases hk : k < overall_total
    · cases f2 with
      | zero => omega
      | succ f2 =>
        rw [searchLoop]
        conv_rhs => rw [searchLoop]
        rw [if_pos hk, if_pos hk]
        dsimp only
        by_cases hstop :
            (yieldPage max_results k (pageFn toD search_from_date)).stopped = true
        · rw [if_pos hstop, if_pos hstop]
        · rw [if_neg hstop, if_neg hstop]
          cases hgl : (pageFn toD search_from_date).getLast? with
          | none => rfl
          | some project =>
            dsimp only
            have hlt := searchLoop_ne_nil_outer_lt max_results _ k project hgl
            rw [ih f2 (project.created_date - 1)
              (yieldPage max_results k (pageFn toD search_from_date)).outer
              (by omega) (by omega)]
    · cases f2 with
      | zero => rw [searchLoop, searchLoop, if_neg hk]
      | succ f2 => rw [searchLoop, searchLoop, if_neg hk, if_neg hk]

/-- C4: every search terminates with a finite trace.  Conjuncts: (i) a probe
reporting `overallTotal = 0` produces an empty run; (ii) a page request
returning zero records ends the whole search with no further yields, even short
of `overallTotal`; (iii) the number of page requests is bounded by
`overall_total - outer_counter` (each non-empty page strictly increases the
counter, which the loop guard keeps below `overallTotal`); (iv) any iteration
budget at least the loop measure `overall_total - outer_counter` computes the
same finite result — the loop needs only finitely many iterations. -/
theorem search_terminates :
    (∀ (db : List RiverscapesProject) (page_size : Nat) (max_results : Option Int)
       (now_date : Int) (callerTo callerFrom : Option Int),
       (db.filter (probeWindow callerTo callerFrom)).length = 0 →
       search db page_size max_results now_date callerTo callerFrom = ⟨[], []⟩)
  ∧ (∀ pageFn overall_total max_results search_from_date fuel search_to_date
       outer_counter, pageFn search_to_date search_from_date = [] →
       (searchLoop pageFn overall_total max_results search_from_date
         fuel search_to_date outer_counter).yields = [])
  ∧ (∀ pageFn overall_total max_results search_from_date fuel search_to_date
       outer_counter,
       (searchLoop pageFn overall_total max_results search_from_date
         fuel search_to_date outer_counter).pages.length ≤
         overall_total - outer_counter)
  ∧ (∀ pageFn overall_total max_results search_from_date f1 f2 search_to_date
       outer_counter,
       overall_total - outer_counter ≤ f1 →
       overall_total - outer_counter ≤ f2 →
       searchLoop pageFn overall_total max_results search_from_date
         f1 search_to_date outer_counter =
       searchLoop pageFn overall_total max_results search_from_date
         f2 search_to_date outer_counter) := by
  refine ⟨?_, ?_, ?_, ?_⟩
  · intro db page_size max_results now_date callerTo callerFrom h
    unfold search
    rw [h]
    exact searchLoop_zero_total _ _ _ _ _ _
  · intro pageFn total m fro fuel toD k h
    exact searchLoop_empty_page pageFn total m fro fuel toD k h
  · intro pageFn total m fro fuel toD k
    exact searchLoop_pages_le pageFn total m fro fuel toD k
  · intro pageFn total m fro f1 f2 toD k h1 h2
    exact searchLoop_fuel_irrel pageFn total m fro f1 f2 toD k h1 h2

/-- Witness for C4 at concrete inputs: an empty dataset's probe reports zero
and the run is empty; an always-empty page function yields nothing; the page
trace of a three-record search is bounded; and budgets 5 and 9 agree for a
measure-3 loop. -/
theorem search_terminates_witness :
    search [] 5 none 1000 none none = ⟨[], []⟩ ∧
    (searchLoop (fun _ _ => []) 3 none none 3 1000 0).yields = [] ∧
    (searchLoop (fun _ _ => [⟨1, 5⟩]) 3 none none 7 1000 0).pages.length ≤ 3 - 0 ∧
    searchLoop (fun _ _ => [⟨1, 5⟩]) 3 none none 5 1000 0 =
      searchLoop (fun _ _ => [⟨1, 5⟩]) 3 none none 9 1000 0 :=
  ⟨search_terminates.1 [] 5 none 1000 none none rfl,
   search_terminates.2.1 _ 3 none none 3 1000 0 rfl,
   search_terminates.2.2.1 _ 3 none none 7 1000 0,
   search_terminates.2.2.2 _ 3 none none 5 9 1000 0 (by decide) (by decide)⟩

-- ### The result cap, normalised

/-- Normalised view of `max_results`: `some t` when the Python guard
`max_results and max_results > 0` can ever fire (then `t` is the cap as a
natural number), `none` when the cap never fires (`None` or non-positive). -/
def normCap (max_results : Option Int) : Option Nat :=
  match max_results with
  | none => none
  | some v => if 0 < v then some v.toNat else none

/-- Number of records a search can yield: `overall_total`, clipped by an
effective result cap. -/
def capTarget (max_results : Option Int) (overall_total : Nat) : Nat :=
  match normCap max_results with
  | none => overall_total
  | some t => min overall_total t

/-- Loop-state condition: the counter is still below any effective cap
(holds initially and is preserved whenever the cap `return` did not fire). -/
def capOkState (max_results : Option Int) (outer_counter : Nat) : Prop :=
  match normCap max_results with
  | none => True
  | some t => outer_counter < t

theorem capReached_norm_none (max_results : Option Int)
    (h : normCap max_results = none) (n : Nat) :
    capReached max_results n = false := by
  cases max_results with
  | none => rfl
  | some v =>
    simp only [normCap] at h
    by_cases hv : 0 < v
    · rw [if_pos hv] at h; exact absurd h (by simp)
    · simp only [capReached]
      have : decide (0 < v) = false := by simpa using hv
      rw [this]
      simp

theorem capReached_norm_some (max_results : Option Int) (t : Nat)
    (h : normCap max_results = some t) (n : Nat) :
    capReached max_results n = decide (t ≤ n) := by
  cases max_results with
  | none => exact absurd h (by simp [normCap])
  | some v =>
    simp only [normCap] at h
    by_cases hv : 0 < v
    · rw [if_pos hv] at h
      have ht : t = v.toNat := by simpa using h.symm
      subst ht
      simp only [capReached]
      have h1 : (v != 0) = true := by simp; omega
      have h2 : decide (0 < v) = true := by simpa using hv
      rw [h1, h2]
      simp only [Bool.true_and]
      by_cases hle : v ≤ (n : Int)
      · rw [decide_eq_true hle, decide_eq_true (by omega : v.toNat ≤ n)]
      · rw [decide_eq_false hle, (decide_eq_false (by omega : ¬ v.toNat ≤ n))]
    · rw [if_neg hv] at h; exact absurd h (by simp)

theorem yieldPage_norm_none (max_results : Option Int)
    (h : normCap max_results = none) :
    ∀ (l : List RiverscapesProject) (c : Nat),
      yieldPage max_results c l = ⟨l, c + l.length, false⟩ := by
  intro l
  induction l with
  | nil => intro c; simp [yieldPage]
  | cons p rest ih =>
    intro c
    rw [yieldPage, capReached_norm_none max_results h]
    simp only [Bool.false_eq_true, if_false, ih (c + 1)]
    simp only [List.length_cons]
    congr 1
    omega

theorem yieldPage_norm_small (max_results : Option Int) (t : Nat)
    (h : normCap max_results = some t) :
    ∀ (l : List RiverscapesProject) (c : Nat), c < t → l.length < t - c →
      yieldPage max_results c l = ⟨l, c + l.length, false⟩ := by
  intro l
  induction l with
  | nil => intro c _ _; simp [yieldPage]
  | cons p rest ih =>
    intro c hc hlen
    rw [yieldPage, capReached_norm_some max_results t h]
    have hnot : ¬ t ≤ c + 1 := by simp only [List.length_cons] at hlen; omega
    rw [decide_eq_false hnot]
    simp only [Bool.false_eq_true, if_false]
    rw [ih (c + 1) (by omega) (by simp only [List.length_cons] at hlen; omega)]
    simp only [List.length_cons]
    congr 1
    omega

theorem yieldPage_norm_hit (max_results : Option Int) (t : Nat)
    (h : normCap max_results = some t) :
    ∀ (l : List RiverscapesProject) (c : Nat), c < t → t - c ≤ l.length →
      yieldPage max_results c l = ⟨l.take (t - c), t, true⟩ := by
  intro l
  induction l with
  | nil => intro c hc hlen; simp at hlen; omega
  | cons p rest ih =>
    intro c hc hlen
    rw [yieldPage, capReached_norm_some max_results t h]
    by_cases hhit : t ≤ c + 1
    · rw [decide_eq_true hhit]
      simp only [if_true]
      have ht : t = c + 1 := by omega
      subst ht
      have : c + 1 - c = 1 := by omega
      rw [this]
      simp
    · rw [decide_eq_false hhit]
      simp only [Bool.false_eq_true, if_false]
      rw [ih (c + 1) (by omega) (by simp only [List.length_cons] at hlen; omega)]
      have hstep : t - c = (t - (c + 1)) + 1 := by omega
      rw [hstep]
      simp [List.take_succ_cons]

-- ### Window filters over a strictly date-descending dataset

theorem filter_inWindow_reduce (fro : Option Int) (toD : Int)
    (l : List RiverscapesProject) (hfro : ∀ p ∈ l, fromOk fro p = true) :
    l.filter (inWindow toD fro)
      = l.filter (fun p => decide (p.created_date ≤ toD)) := by
  apply List.filter_congr
  intro p hp
  simp only [inWindow, hfro p hp, Bool.and_true]

/-- Core boundary-advance fact: in a strictly date-descending list written as
`A ++ p :: B`, filtering by `created_date ≤ p.created_date - 1` keeps exactly
the suffix `B` (everything at or before `p` is too recent, everything after is
strictly older). -/
theorem filter_lt_last :
    ∀ (A : List RiverscapesProject) (p : RiverscapesProject)
      (B : List RiverscapesProject),
      (A ++ p :: B).Pairwise (fun a b => b.created_date < a.created_date) →
      (A ++ p :: B).filter
        (fun q => decide (q.created_date ≤ p.created_date - 1)) = B := by
  intro A
  induction A with
  | nil =>
    intro p B hpair
    rw [List.nil_append] at hpair ⊢
    rw [List.pairwise_cons] at hpair
    rw [List.filter_cons]
    rw [decide_eq_false (by omega : ¬ p.created_date ≤ p.created_date - 1)]
    simp only [Bool.false_eq_true, if_false]
    exact List.filter_eq_self.mpr
      (fun b hb => decide_eq_true (by have := hpair.1 b hb; omega))
  | cons a A ih =>
    intro p B hpair
    rw [List.cons_append, List.pairwise_cons] at hpair
    have hpa : p.created_date < a.created_date :=
      hpair.1 p (by simp)
    rw [List.cons_append, List.filter_cons]
    rw [decide_eq_false (by omega : ¬ a.created_date ≤ p.created_date - 1)]
    simp only [Bool.false_eq_true, if_false]
    exact ih p B hpair.2

theorem getLast?_exists_of_ne_nil {α : Type} (l : List α) (h : l ≠ []) :
    ∃ a, l.getLast? = some a := by
  cases hl : l.getLast? with
  | none => exact absurd (List.getLast?_eq_none_iff.mp hl) h
  | some a => exact ⟨a, rfl⟩

/-- After fully consuming the page `(db.drop k).take page_size` of a strictly
date-descending dataset, moving the window's `to` boundary to the page's last
record's creation date minus one excludes exactly the records already seen:
the next window filters `db` down to the remaining suffix. -/
theorem searchLoop_advance
    (db : List RiverscapesProject) (page_size : Nat) (fro : Option Int)
    (hsort : db.Pairwise (fun a b => b.created_date < a.created_date))
    (hfro : ∀ p ∈ db, fromOk fro p = true)
    (k : Nat) (project : RiverscapesProject)
    (hgl : ((db.drop k).take page_size).getLast? = some project) :
    db.filter (inWindow (project.created_date - 1) fro)
      = db.drop (k + ((db.drop k).take page_size).length) := by
  have hj : ((db.drop k).take page_size).length = min page_size (db.length - k) := by
    simp [List.length_take, List.length_drop]
  have htakej : (db.drop k).take page_size
      = (db.drop k).take (min page_size (db.length - k)) := by
    rw [List.take_eq_take]
    rw [List.length_drop]
    omega
  have hdecomp0 : ((db.drop k).take page_size).dropLast ++ [project]
      = (db.drop k).take page_size :=
    List.dropLast_append_getLast? project (Option.mem_def.mpr hgl)
  have htk : db.take (k + ((db.drop k).take page_size).length)
      = db.take k ++ (db.drop k).take (((db.drop k).take page_size).length) := by
    rw [List.take_add]
  have htk2 : (db.drop k).take (((db.drop k).take page_size).length)
      = (db.drop k).take page_size := by
    rw [List.take_eq_take]
    rw [List.length_drop, hj]
    omega
  have hdb : db = (db.take k ++ ((db.drop k).take page_size).dropLast)
      ++ project :: db.drop (k + ((db.drop k).take page_size).length) := by
    conv_lhs =>
      rw [← List.take_append_drop (k + ((db.drop k).take page_size).length) db]
    rw [htk, htk2, ← hdecomp0]
    simp [List.append_assoc]
  have hfilter := filter_lt_last
    (db.take k ++ ((db.drop k).take page_size).dropLast) project
    (db.drop (k + ((db.drop k).take page_size).length)) (hdb ▸ hsort)
  rw [filter_inWindow_reduce fro _ db hfro]
  conv_lhs => rw [hdb]
  exact hfilter

/-- Exact behaviour of the page loop against the honest index `serverPage` over
a strictly date-descending dataset `db`, from any reachable loop state: the
records yielded are exactly the next `capTarget - outer_counter` elements of
the window's suffix of the dataset. -/
theorem searchLoop_honest
    (db : List RiverscapesProject) (page_size : Nat)
    (fro max_results : Option Int)
    (hsort : db.Pairwise (fun a b => b.created_date < a.created_date))
    (hps : 1 ≤ page_size)
    (hfro : ∀ p ∈ db, fromOk fro p = true) :
    ∀ (fuel k : Nat) (search_to_date : Int),
      db.length - k ≤ fuel →
      db.filter (inWindow search_to_date fro) = db.drop k →
      capOkState max_results k →
      (searchLoop (serverPage db page_size) db.length max_results fro
        fuel search_to_date k).yields
        = (db.drop k).take (capTarget max_results db.length - k) := by
  intro fuel
  induction fuel with
  | zero =>
    intro k toD hfuel hinv hcap
    have hnil : db.drop k = [] := List.drop_eq_nil_of_le (by omega)
    simp [searchLoop, hnil]
  | succ fuel ih =>
    intro k toD hfuel hinv hcap
    rw [searchLoop]
    by_cases hk : k < db.length
    · rw [if_pos hk]
      dsimp only
      have hproj : serverPage db page_size toD fro = (db.drop k).take page_size := by
        rw [serverPage, hinv]
      rw [hproj]
      have hj : ((db.drop k).take page_size).length
          = min page_size (db.length - k) := by
        simp [List.length_take, List.length_drop]
      have hPne : (db.drop k).take page_size ≠ [] := by
        apply List.ne_nil_of_length_pos
        rw [hj]
        omega
      obtain ⟨project, hgl⟩ := getLast?_exists_of_ne_nil _ hPne
      cases hnc : normCap max_results with
      | none =>
        rw [yieldPage_norm_none max_results hnc]
        dsimp only
        rw [if_neg (by simp)]
        rw [hgl]
        dsimp only
        have hadv := searchLoop_advance db page_size fro hsort hfro k project hgl
        have hrec := ih (k + ((db.drop k).take page_size).length)
          (project.created_date - 1) (by rw [hj]; omega) hadv
          (by simp [capOkState, hnc])
        rw [hrec]
        have hT : capTarget max_results db.length = db.length := by
          simp [capTarget, hnc]
        rw [hT]
        have hjlen : ((db.drop k).take page_size).length
            = min page_size (db.length - k) := hj
        rw [show db.drop (k + ((db.drop k).take page_size).length)
            = (db.drop k).drop (((db.drop k).take page_size).length) by
          rw [List.drop_drop]]
        have htakej : (db.drop k).take page_size
            = (db.drop k).take (((db.drop k).take page_size).length) := by
          rw [List.take_eq_take]
          rw [List.length_drop, hj]
          omega
        conv_lhs => rw [htakej]
        rw [show db.length - k
            = ((db.drop k).take page_size).length
              + (db.length - (k + ((db.drop k).take page_size).length)) by
          rw [hj]; omega]
        rw [List.take_add]
        rw [show ((db.drop k).take (((db.drop k).take page_size).length)).length
            = ((db.drop k).take page_size).length by
          rw [List.length_take, List.length_drop, hj]; omega]
      | some t =>
        have hkt : k < t := by
          have := hcap
          rw [capOkState, hnc] at this
          exact this
        by_cases hsmall : ((db.drop k).take page_size).length < t - k
        · rw [yieldPage_norm_small max_results t hnc _ k hkt hsmall]
          dsimp only
          rw [if_neg (by simp)]
          rw [hgl]
          dsimp only
          have hadv := searchLoop_advance db page_size fro hsort hfro k project hgl
          have hrec := ih (k + ((db.drop k).take page_size).length)
            (project.created_date - 1) (by rw [hj]; omega) hadv
            (by rw [capOkState, hnc]; omega)
          rw [hrec]
          have hT : capTarget max_results db.length = min db.length t := by
            simp [capTarget, hnc]
          rw [hT]
          rw [show db.drop (k + ((db.drop k).take page_size).length)
              = (db.drop k).drop (((db.drop k).take page_size).length) by
            rw [List.drop_drop]]
          have htakej : (db.drop k).take page_size
              = (db.drop k).take (((db.drop k).take page_size).length) := by
            rw [List.take_eq_take]
            rw [List.length_drop, hj]
            omega
          conv_lhs => rw [htakej]
          rw [show min db.length t - k
              = ((db.drop k).take page_size).length
                + (min db.length t - (k + ((db.drop k).take page_size).length)) by
            rw [hj]; omega]
          rw [List.take_add]
          rw [show ((db.drop k).take (((db.drop k).take page_size).length)).length
              = ((db.drop k).take page_size).length by
            rw [List.length_take, List.length_drop, hj]; omega]
        · rw [yieldPage_norm_hit max_results t hnc _ k hkt (by omega)]
          dsimp only
          rw [if_pos rfl]
          dsimp only
          rw [List.take_take]
          have hT : capTarget max_results db.length = min db.length t := by
            simp [capTarget, hnc]
          rw [hT]
          congr 1
          rw [hj] at hsmall
          omega
    · rw [if_neg hk]
      have hnil : db.drop k = [] := List.drop_eq_nil_of_le (by omega)
      simp [hnil]

/-- Core of the cap claim, at loop level with the window boundary already
resolved: from the initial state, with the whole strictly-descending dataset
inside the window, the loop yields exactly the first
`min db.length v.toNat` records. -/
theorem searchLoop_cap_core
    (db : List RiverscapesProject) (page_size : Nat) (v : Int)
    (fro : Option Int) (t0 : Int)
    (hsort : db.Pairwise (fun a b => b.created_date < a.created_date))
    (hps : 1 ≤ page_size) (hv : 0 < v)
    (hfro : ∀ p ∈ db, fromOk fro p = true)
    (ht0 : ∀ p ∈ db, p.created_date ≤ t0) :
    (searchLoop (serverPage db page_size) db.length (some v) fro
      db.length t0 0).yields = db.take (min db.length v.toNat) := by
  have hinv : db.filter (inWindow t0 fro) = db.drop 0 := by
    rw [List.drop_zero]
    apply List.filter_eq_self.mpr
    intro p hp
    rw [inWindow, Bool.and_eq_true]
    exact ⟨decide_eq_true (ht0 p hp), hfro p hp⟩
  have hnc : normCap (some v) = some v.toNat := by
    rw [normCap, if_pos hv]
  have hcap : capOkState (some v) 0 := by
    rw [capOkState, hnc]
    omega
  have hmain := searchLoop_honest db page_size fro (some v) hsort hps hfro
    db.length 0 t0 (by omega) hinv hcap
  rw [hmain, List.drop_zero, Nat.sub_zero, capTarget, hnc]

/-- C3: for a positive result cap `max_results = v`, `search` yields exactly
`min overallTotal v` records — the first `min overallTotal v.toNat` of the
dataset in date-descending order — and on hitting the cap it returns
immediately, mid-page, without yielding the remainder of the page (the yield
list is a strict prefix cut at the cap, not rounded up to a page boundary).
The dataset is assumed stable, strictly date-descending, and entirely inside
the caller's window (so the probe total is `db.length` and pages stay non-empty
until the total is reached). -/
theorem search_respects_max_results
    (db : List RiverscapesProject) (page_size : Nat) (v : Int)
    (now_date : Int) (callerTo callerFrom : Option Int)
    (hsort : db.Pairwise (fun a b => b.created_date < a.created_date))
    (hps : 1 ≤ page_size) (hv : 0 < v)
    (hwin : ∀ p ∈ db, probeWindow callerTo callerFrom p = true)
    (hnow : ∀ p ∈ db, p.created_date ≤ callerTo.getD now_date) :
    (search db page_size (some v) now_date callerTo callerFrom).yields
      = db.take (min db.length v.toNat) := by
  have hfil : db.filter (probeWindow callerTo callerFrom) = db :=
    List.filter_eq_self.mpr hwin
  have hfro : ∀ p ∈ db, fromOk callerFrom p = true := by
    intro p hp
    have hw := hwin p hp
    simp only [probeWindow, Bool.and_eq_true] at hw
    exact hw.2
  unfold search
  dsimp only
  rw [hfil]
  cases callerTo with
  | none =>
    exact searchLoop_cap_core db page_size v callerFrom now_date
      hsort hps hv hfro (by simpa [Option.getD] using hnow)
  | some t =>
    exact searchLoop_cap_core db page_size v callerFrom t
      hsort hps hv hfro (by simpa [Option.getD] using hnow)

/-- Witness for C3: three records, page size 2, cap 1 — the cap fires after
the first record of the first (two-record) page, so exactly
`min 3 1 = 1` record is yielded and the page's second record is not. -/
theorem search_respects_max_results_witness :
    (search ([⟨1, 100⟩, ⟨2, 90⟩, ⟨3, 80⟩] : List RiverscapesProject)
        2 (some 1) 1000 none none).yields
      = List.take (min (List.length
          ([⟨1, 100⟩, ⟨2, 90⟩, ⟨3, 80⟩] : List RiverscapesProject))
          (Int.toNat 1))
          ([⟨1, 100⟩, ⟨2, 90⟩, ⟨3, 80⟩] : List RiverscapesProject) :=
  search_respects_max_results
    ([⟨1, 100⟩, ⟨2, 90⟩, ⟨3, 80⟩] : List RiverscapesProject) 2 1 1000 none none
    (by decide) (by decide) (by decide) (by decide) (by decide)

-- ## The Query Executor: `run_query`

/-- `as` is a literal prefix of `bs` (character lists). -/
def charListPrefixOf : List Char → List Char → Bool
  | [], _ => true
  | _ :: _, [] => false
  | a :: as, b :: bs => (a == b) && charListPrefixOf as bs

/-- `needle` occurs contiguously somewhere in the character list. -/
def charListContains (needle : List Char) : List Char → Bool
  | [] => charListPrefixOf needle []
  | b :: bs => charListPrefixOf needle (b :: bs) || charListContains needle bs

/-- Python's substring test `needle in hay` (for a non-empty needle), over the
strings' character lists. -/
def strContains (hay needle : String) : Bool :=
  charListContains needle.toList hay.toList

/-- One entry of a GraphQL `errors` array. -/
structure GraphQLError where
  message : String
deriving Repr, DecidableEq

/-- The expired-token signature test of `run_query`:
`'You must be authenticated' in err['message']`. -/
def isAuthExpired (err : GraphQLError) : Bool :=
  strContains err.message "You must be authenticated"

/-- One transport response: status code, GraphQL `errors` array (empty when the
key is absent), and the parsed body for the success case. -/
structure HttpResponse where
  status_code : Nat
  errors : List GraphQLError
  body : String
deriving Repr, DecidableEq

/-- How one `run_query` call ends.  `noneResult` models Python's implicit
`return None` (status 200, non-empty `errors`, no expired-token signature:
control falls out of the `if` ladder).  `outOfResponses` marks a run that
consumed the whole finite response transcript while still retrying — the
shallow rendering of the source's unbounded retry recursion. -/
inductive QueryResult where
  | success (resp : HttpResponse)
  | noneResult
  | queryError (status_code : Nat) (query : String) (query_vars : String)
  | outOfResponses
deriving Repr, DecidableEq

/-- Observable outcome of `run_query` on a response transcript: the returned
(or raised) result, how many times `refresh_token()` was invoked, and the
header set attached to each request actually sent. -/
structure QueryRun where
  result : QueryResult
  refreshes : Nat
  sentHeaders : List (List (String × String))
deriving Repr, DecidableEq

/-- `headers = {"authorization": "Bearer " + self.access_token} if self.access_token else {}` —
with no token the request is sent with an empty header dict. -/
def headersFor (access_token : Option String) : List (String × String) :=
  match access_token with
  | some tok => [("authorization", "Bearer " ++ tok)]
  | none => []

/-- Effect of the retry path's `self.refresh_token()` on the stored token:
`force` defaults to `False`, so an existing token short-circuits at the
"Token already exists. Not refreshing." guard and is kept unchanged; only an
absent token is actually replaced by a freshly acquired one. -/
def refreshed_token (access_token : Option String) (fresh_token : String) :
    Option String :=
  match access_token with
  | some tok => some tok
  | none => some fresh_token

/-- `RiverscapesAPI.run_query` over a finite transcript of transport responses
(the head is the response to the request sent now; a retry consumes the next).
Status 200 with an expired-token signature in `errors` invokes
`refresh_token()` and recurses; 200 with other errors falls through and
returns `None`; 200 without errors returns the body; any other status raises
carrying the status code, the query text and the query_vars. -/
def run_query (access_token : Option String) (fresh_token : String)
    (query query_vars : String) : List HttpResponse → QueryRun
  | [] => ⟨.outOfResponses, 0, []⟩
  | r :: rest =>
    let headers := headersFor access_token
    if r.status_code = 200 then
      if 0 < r.errors.length then
        if 0 < (r.errors.filter isAuthExpired).length then
          let r2 := run_query (refreshed_token access_token fresh_token)
            fresh_token query query_vars rest
          ⟨r2.result, r2.refreshes + 1, headers :: r2.sentHeaders⟩
        else ⟨.noneResult, 0, [headers]⟩
      else ⟨.success r, 0, [headers]⟩
    else ⟨.queryError r.status_code query query_vars, 0, [headers]⟩

/-- Counterexample to C2 ("retries exactly once; a second same-kind failure is
returned as-is"): on a transcript whose first two responses both carry the
expired-token signature and whose third succeeds, `run_query` invokes
`refresh_token()` twice and returns the third response's success — the second
same-kind failure was retried again, not returned to the caller. -/
theorem run_query_retries_beyond_once :
    (run_query (some "stale") "fresh" "q" "v"
      [⟨200, [⟨"Unauthorized: You must be authenticated to run this query"⟩], ""⟩,
       ⟨200, [⟨"Unauthorized: You must be authenticated to run this query"⟩], ""⟩,
       ⟨200, [], "payload"⟩]).refreshes = 2
  ∧ (run_query (some "stale") "fresh" "q" "v"
      [⟨200, [⟨"Unauthorized: You must be authenticated to run this query"⟩], ""⟩,
       ⟨200, [⟨"Unauthorized: You must be authenticated to run this query"⟩], ""⟩,
       ⟨200, [], "payload"⟩]).result = .success ⟨200, [], "payload"⟩ := by
  constructor <;> rfl

/-- C2 as amended: every response bearing the expired-token signature makes
`run_query` invoke `refresh_token()` (un-forced — an existing token is kept
unchanged) exactly once and then retry the query against the rest of the
transcript; the recursion carries no retry counter, so a second same-kind
failure is retried again in exactly the same way rather than being returned. -/
theorem run_query_auth_retry_unbounded
    (access_token : Option String) (fresh_token query query_vars : String)
    (r : HttpResponse) (rest : List HttpResponse)
    (h200 : r.status_code = 200)
    (herr : 0 < r.errors.length)
    (hauth : 0 < (r.errors.filter isAuthExpired).length) :
    (run_query access_token fresh_token query query_vars (r :: rest)).refreshes
      = (run_query (refreshed_token access_token fresh_token) fresh_token
          query query_vars rest).refreshes + 1
  ∧ (run_query access_token fresh_token query query_vars (r :: rest)).result
      = (run_query (refreshed_token access_token fresh_token) fresh_token
          query query_vars rest).result := by
  rw [run_query]
  rw [if_pos h200, if_pos herr, if_pos hauth]
  exact ⟨rfl, rfl⟩

/-- Witness for the amended C2 at a concrete transcript: one expired-token
response followed by one success — one refresh call, then the retried query's
result, exactly as the step law instantiates. -/
theorem run_query_auth_retry_unbounded_witness :
    (run_query (some "stale") "fresh" "q" "v"
      [⟨200, [⟨"Totally: You must be authenticated for this"⟩], ""⟩,
       ⟨200, [], "payload"⟩]).refreshes
      = (run_query (refreshed_token (some "stale") "fresh") "fresh"
          "q" "v" [⟨200, [], "payload"⟩]).refreshes + 1
  ∧ (run_query (some "stale") "fresh" "q" "v"
      [⟨200, [⟨"Totally: You must be authenticated for this"⟩], ""⟩,
       ⟨200, [], "payload"⟩]).result
      = (run_query (refreshed_token (some "stale") "fresh") "fresh"
          "q" "v" [⟨200, [], "payload"⟩]).result :=
  run_query_auth_retry_unbounded (some "stale") "fresh" "q" "v"
    ⟨200, [⟨"Totally: You must be authenticated for this"⟩], ""⟩
    [⟨200, [], "payload"⟩] rfl (by decide) (by decide)

/-- Counterexample to C8 ("raises `QueryError` ... or when the 2xx response
carries an unrecoverable GraphQL error"): a 200 response whose `errors` array
is non-empty but contains no expired-token signature makes `run_query` fall
out of its `if` ladder and return Python's `None` — nothing is raised. -/
theorem run_query_graphql_error_returns_none :
    (run_query (some "tok") "fresh" "q" "v"
      [⟨200, [⟨"Field projectX does not exist on type Query"⟩], ""⟩]).result
      = QueryResult.noneResult := by
  rfl

/-- C8 as amended: `run_query` raises `QueryError` (carrying the status code,
the query text and the variables) exactly when the transport status is not
200; a 200 response without errors returns the parsed response; and a 200
response with errors but no expired-token signature returns `None` rather
than raising. -/
theorem run_query_raise_characterization
    (access_token : Option String) (fresh_token query query_vars : String)
    (r : HttpResponse) (rest : List HttpResponse) :
    (r.status_code ≠ 200 →
      run_query access_token fresh_token query query_vars (r :: rest)
        = ⟨.queryError r.status_code query query_vars, 0,
            [headersFor access_token]⟩)
  ∧ (r.status_code = 200 → r.errors.length = 0 →
      run_query access_token fresh_token query query_vars (r :: rest)
        = ⟨.success r, 0, [headersFor access_token]⟩)
  ∧ (r.status_code = 200 → 0 < r.errors.length →
      (r.errors.filter isAuthExpired).length = 0 →
      run_query access_token fresh_token query query_vars (r :: rest)
        = ⟨.noneResult, 0, [headersFor access_token]⟩) := by
  refine ⟨?_, ?_, ?_⟩
  · intro hne
    rw [run_query, if_neg hne]
  · intro h200 herr
    rw [run_query, if_pos h200, if_neg (by omega)]
  · intro h200 herr hauth
    rw [run_query, if_pos h200, if_pos herr, if_neg (by omega)]

/-- Witness for the amended C8, one concrete response per branch: status 500
raises with the diagnostics; a clean 200 returns the body; a 200 with a
non-auth error returns `None`. -/
theorem run_query_raise_characterization_witness :
    run_query (some "tok") "fresh" "q" "v" [⟨500, [], ""⟩]
      = ⟨.queryError 500 "q" "v", 0, [headersFor (some "tok")]⟩
  ∧ run_query (some "tok") "fresh" "q" "v" [⟨200, [], "payload"⟩]
      = ⟨.success ⟨200, [], "payload"⟩, 0, [headersFor (some "tok")]⟩
  ∧ run_query (some "tok") "fresh" "q" "v" [⟨200, [⟨"bad field"⟩], ""⟩]
      = ⟨.noneResult, 0, [headersFor (some "tok")]⟩ :=
  ⟨(run_query_raise_characterization (some "tok") "fresh" "q" "v"
      ⟨500, [], ""⟩ []).1 (by decide),
   (run_query_raise_characterization (some "tok") "fresh" "q" "v"
      ⟨200, [], "payload"⟩ []).2.1 rfl rfl,
   (run_query_raise_characterization (some "tok") "fresh" "q" "v"
      ⟨200, [⟨"bad field"⟩], ""⟩ []).2.2 rfl (by decide) (by rfl)⟩

/-- Counterexample to C9 ("a bearer token is present and attached, or the call
fails fast with a typed error before any request is sent"): with
`access_token = None`, `run_query` builds an empty header dict and sends the
request anyway — here it even succeeds; no typed error precedes the send. -/
theorem run_query_missing_token_sends_request :
    run_query none "fresh" "q" "v" [⟨200, [], "payload"⟩]
      = ⟨.success ⟨200, [], "payload"⟩, 0, [[]]⟩ := by
  rfl

/-- C9 as amended: every request `run_query` sends carries exactly
`headersFor access_token` — a `Bearer` authorization header when a token is
present, and an empty header set (no fail-fast error) when it is absent. -/
theorem run_query_header_attachment
    (access_token : Option String) (fresh_token query query_vars : String)
    (r : HttpResponse) (rest : List HttpResponse) :
    (run_query access_token fresh_token query query_vars
        (r :: rest)).sentHeaders.head? = some (headersFor access_token)
  ∧ (∀ t : String, headersFor (some t) = [("authorization", "Bearer " ++ t)])
  ∧ headersFor none = [] := by
  refine ⟨?_, fun t => rfl, rfl⟩
  rw [run_query]
  by_cases h200 : r.status_code = 200
  · rw [if_pos h200]
    by_cases herr : 0 < r.errors.length
    · rw [if_pos herr]
      by_cases hauth : 0 < (r.errors.filter isAuthExpired).length
      · rw [if_pos hauth]
        rfl
      · rw [if_neg hauth]
        rfl
    · rw [if_neg herr]
      rfl
  · rw [if_neg h200]
    rfl

-- ## The Token Lifecycle Manager: `refresh_token` and its self-refresh timer

/-- An armed `threading.Timer`: fires after `delay_seconds` and then invokes
`self.refresh_token` with no arguments (so `force` takes its default `False`).
A cancelled or already-fired timer is represented by `none` in the session. -/
structure TimerHandle where
  delay_seconds : Int
deriving Repr, DecidableEq

/-- The token-relevant state of a `RiverscapesAPI` session: the stored bearer
token, the armed refresh timer (if any), whether non-empty `dev_headers` were
supplied, and whether machine credentials were supplied. -/
structure ApiSession where
  access_token : Option String
  token_timeout : Option TimerHandle
  has_dev_headers : Bool
  has_machine_auth : Bool
deriving Repr, DecidableEq

/-- The token endpoint's answer to a successful exchange. -/
structure TokenResponse where
  access_token : String
  expires_in : Int
deriving Repr, DecidableEq

/-- `RiverscapesAPI.refresh_token(force)` as a state transition, with the
network exchange abstracted by the `exch` it would return on the path that
reaches it.  In order: cancel any pending timer; dev headers short-circuit;
an existing token with `force=False` short-circuits ("Token already exists.
Not refreshing."); machine auth stores the new token and arms no timer;
the browser flow stores the new token and arms a timer for
`expires_in - 20` seconds whose callback is `refresh_token` with default
arguments. -/
def refresh_token (st : ApiSession) (exch : TokenResponse) (force : Bool) :
    ApiSession :=
  let st1 : ApiSession := { st with token_timeout := none }
  if st1.has_dev_headers then st1
  else if st1.access_token.isSome && !force then st1
  else if st1.has_machine_auth then
    { st1 with access_token := some exch.access_token }
  else
    { st1 with
      access_token := some exch.access_token,
      token_timeout := some ⟨exch.expires_in - 20⟩ }

/-- The armed timer fires: `threading.Timer(res["expires_in"] - 20,
self.refresh_token)` invokes `refresh_token` with no arguments, i.e.
`force = False`. -/
def fire_token_timeout (st : ApiSession) (exch : TokenResponse) : ApiSession :=
  refresh_token st exch false

/-- C5 is half right and half wrong on the code (code bug): after a successful
interactive exchange the timer is armed for `expires_in - 20` seconds as
claimed, but when it fires it calls `refresh_token` with the default
`force=False`, which returns at the "Token already exists. Not refreshing."
guard — the token is NOT renewed (the second exchange's token is never
stored) and NO new timer is armed, so the chain stops after the first firing
instead of re-arming indefinitely. -/
theorem refresh_timer_fire_is_noop :
    (refresh_token ⟨none, none, false, false⟩ ⟨"tok1", 86400⟩ false).access_token
        = some "tok1"
  ∧ (refresh_token ⟨none, none, false, false⟩ ⟨"tok1", 86400⟩ false).token_timeout
        = some ⟨86400 - 20⟩
  ∧ fire_token_timeout
        (refresh_token ⟨none, none, false, false⟩ ⟨"tok1", 86400⟩ false)
        ⟨"tok2", 86400⟩
      = ⟨some "tok1", none, false, false⟩ := by
  refine ⟨rfl, rfl, ?_⟩
  rfl

-- ## The Bounded Concurrency Dispatcher: `process_search_results_async`

/-- Observable outcome of one dispatcher run: the units submitted (in order),
the size of the `futures` list right after each submission, and the `futures`
list left when the producer loop ends — the only futures whose `.result()`
(and hence whose exception) the final `as_completed` block ever retrieves. -/
structure DispatchRun where
  submitted : List Nat
  inflight_trace : List Nat
  final_futures : List Nat
deriving Repr, DecidableEq

/-- The producer's back-pressure step: if the `futures` list has reached
`max_workers`, block on `concurrent.futures.wait(..., FIRST_COMPLETED)` and
keep only the not-yet-done futures.  The scheduler is abstracted by `oracle`:
at the `w`-th wait it reports how many in-flight units have completed
(clamped to at least one — `FIRST_COMPLETED` returns only when something is
done — and at most all of them); this model resolves the nondeterministic
completion order as oldest-first. -/
def waitIfFull (max_workers : Nat) (oracle : Nat → Nat)
    (futures : List Nat) (w : Nat) : List Nat × Nat :=
  if max_workers ≤ futures.length then
    (futures.drop (min (max (oracle w) 1) futures.length), w + 1)
  else (futures, w)

/-- The producer loop of `process_search_results_async`: for each record, wait
if the in-flight set is at capacity, then submit and track the new future.
When the search sequence is exhausted, the remaining futures go to the final
`as_completed` block. -/
def dispatchLoop (max_workers : Nat) (oracle : Nat → Nat) :
    List Nat → List Nat → Nat → DispatchRun
  | [], futures, _ => ⟨[], [], futures⟩
  | record :: rest, futures, w =>
    let futures2 := (waitIfFull max_workers oracle futures w).1 ++ [record]
    let r := dispatchLoop max_workers oracle rest futures2
      (waitIfFull max_workers oracle futures w).2
    ⟨record :: r.submitted, futures2.length :: r.inflight_trace, r.final_futures⟩

/-- `RiverscapesAPI.process_search_results_async`, with the search records
abstracted to their ids and the worker pool to the completion `oracle`. -/
def process_search_results_async (max_workers : Nat) (oracle : Nat → Nat)
    (records : List Nat) : DispatchRun :=
  dispatchLoop max_workers oracle records [] 0

/-- The units whose exceptions the final `as_completed` block catches and
logs: exactly the still-tracked futures whose callback raised. -/
def loggedFailures (run : DispatchRun) (raises : Nat → Bool) : List Nat :=
  run.final_futures.filter raises

theorem waitIfFull_length_lt (max_workers : Nat) (oracle : Nat → Nat)
    (futures : List Nat) (w : Nat) (hN : 1 ≤ max_workers)
    (hle : futures.length ≤ max_workers) :
    (waitIfFull max_workers oracle futures w).1.length < max_workers := by
  rw [waitIfFull]
  by_cases hfull : max_workers ≤ futures.length
  · rw [if_pos hfull]
    simp only [List.length_drop]
    omega
  · rw [if_neg hfull]
    dsimp only
    omega

theorem dispatchLoop_inflight_le (max_workers : Nat) (oracle : Nat → Nat)
    (hN : 1 ≤ max_workers) :
    ∀ (records futures : List Nat) (w : Nat),
      futures.length ≤ max_workers →
      ∀ c ∈ (dispatchLoop max_workers oracle records futures w).inflight_trace,
        c ≤ max_workers := by
  intro records
  induction records with
  | nil => intro futures w _ c hc; simp [dispatchLoop] at hc
  | cons record rest ih =>
    intro futures w hle c hc
    rw [dispatchLoop] at hc
    dsimp only at hc
    rw [List.mem_cons] at hc
    have hstep := waitIfFull_length_lt max_workers oracle futures w hN hle
    cases hc with
    | inl h =>
      rw [h, List.length_append, List.length_singleton]
      omega
    | inr h =>
      exact ih _ _ (by rw [List.length_append, List.length_singleton]; omega) c h

/-- C6: with `max_workers = N` (N ≥ 1), at no instant does the dispatcher have
more than `N` submitted-but-unaccounted units in flight: every entry of the
in-flight trace (sampled right after each submission, its maximum point) is at
most `N`, because a producer at capacity first waits for at least one unit to
finish.  Since executing callbacks are a subset of the tracked futures (and
the `ThreadPoolExecutor` itself holds only `N` workers), at most `N` callbacks
run concurrently. -/
theorem dispatch_inflight_bounded (max_workers : Nat) (oracle : Nat → Nat)
    (records : List Nat) (hN : 1 ≤ max_workers) :
    ∀ c ∈ (process_search_results_async max_workers oracle
        records).inflight_trace, c ≤ max_workers :=
  dispatchLoop_inflight_le max_workers oracle hN records [] 0 (by simp)

/-- Witness for C6: four records through a two-worker pool whose oracle
completes one unit per wait — every sampled in-flight size is at most 2. -/
theorem dispatch_inflight_bounded_witness :
    1 ≤ 2 ∧
    ∀ c ∈ (process_search_results_async 2 (fun _ => 1)
        [0, 1, 2, 3]).inflight_trace, c ≤ 2 :=
  ⟨by decide, dispatch_inflight_bounded 2 (fun _ => 1) [0, 1, 2, 3] (by decide)⟩

theorem dispatchLoop_submitted (max_workers : Nat) (oracle : Nat → Nat) :
    ∀ (records futures : List Nat) (w : Nat),
      (dispatchLoop max_workers oracle records futures w).submitted = records := by
  intro records
  induction records with
  | nil => intro futures w; rfl
  | cons record rest ih =>
    intro futures w
    rw [dispatchLoop]
    dsimp only
    rw [ih]

theorem dispatchLoop_final_subset (max_workers : Nat) (oracle : Nat → Nat) :
    ∀ (records futures : List Nat) (w : Nat),
      ∀ u ∈ (dispatchLoop max_workers oracle records futures w).final_futures,
        u ∈ futures ++ records := by
  intro records
  induction records with
  | nil =>
    intro futures w u hu
    rw [dispatchLoop] at hu
    simpa using hu
  | cons record rest ih =>
    intro futures w u hu
    rw [dispatchLoop] at hu
    dsimp only at hu
    have := ih ((waitIfFull max_workers oracle futures w).1 ++ [record])
      ((waitIfFull max_workers oracle futures w).2) u hu
    rw [List.mem_append] at this
    rcases this with h1 | h2
    · rw [List.mem_append] at h1
      rcases h1 with h1a | h1b
      · have hsub : u ∈ futures := by
          have : (waitIfFull max_workers oracle futures w).1 = futures
              ∨ ∃ d, (waitIfFull max_workers oracle futures w).1
                = futures.drop d := by
            rw [waitIfFull]
            by_cases hfull : max_workers ≤ futures.length
            · rw [if_pos hfull]; right; exact ⟨_, rfl⟩
            · rw [if_neg hfull]; left; rfl
          rcases this with he | ⟨d, hd⟩
          · rwa [he] at h1a
          · rw [hd] at h1a
            exact List.mem_of_mem_drop h1a
        simp [hsub]
      · simp at h1b
        simp [h1b]
    · simp [h2]

/-- Counterexample to C7 ("every unit whose callback raises has that exception
caught and logged individually"): with one worker and two records, unit 0 is
submitted and completes while the producer is still running, so the
`wait(FIRST_COMPLETED)` call drops it from the `futures` list; the final
`as_completed` block therefore never calls its `.result()`, and although unit
0's callback raises, nothing is caught or logged for it. -/
theorem dispatch_dropped_exception_unlogged :
    0 ∈ (process_search_results_async 1 (fun _ => 1) [0, 1]).submitted
  ∧ (fun i => i == 0) 0 = true
  ∧ loggedFailures (process_search_results_async 1 (fun _ => 1) [0, 1])
      (fun i => i == 0) = [] := by
  refine ⟨by decide, rfl, by decide⟩

/-- C7 as amended: (i) every record is submitted, regardless of which
callbacks raise — a failing unit never prevents another from being submitted
and run (exceptions live in futures; the producer never re-raises them);
(ii) everything logged is a genuinely raising submitted unit; and (iii) the
final `as_completed` block catches and logs the exception of every raising
unit still in the `futures` list when production ends — but only of those:
units observed complete during production are dropped without their
exceptions ever being retrieved. -/
theorem dispatch_failure_logging
    (max_workers : Nat) (oracle : Nat → Nat) (records : List Nat)
    (raises : Nat → Bool) :
    (process_search_results_async max_workers oracle records).submitted = records
  ∧ (∀ u ∈ loggedFailures (process_search_results_async max_workers oracle
        records) raises, raises u = true ∧ u ∈ records)
  ∧ (∀ u ∈ (process_search_results_async max_workers oracle
        records).final_futures, raises u = true →
        u ∈ loggedFailures (process_search_results_async max_workers oracle
          records) raises) := by
  refine ⟨dispatchLoop_submitted max_workers oracle records [] 0, ?_, ?_⟩
  · intro u hu
    rw [loggedFailures, List.mem_filter] at hu
    refine ⟨hu.2, ?_⟩
    have := dispatchLoop_final_subset max_workers oracle records [] 0 u hu.1
    simpa using this
  · intro u hu hr
    rw [loggedFailures, List.mem_filter]
    exact ⟨hu, hr⟩

/-- Witness for the amended C7 at a concrete run: one worker, records `[0, 1]`,
only unit 1 raising — all records are submitted, the logged set is exactly
`[1]`, and unit 1 (still in flight at the end) is indeed logged. -/
theorem dispatch_failure_logging_witness :
    (process_search_results_async 1 (fun _ => 1) [0, 1]).submitted = [0, 1]
  ∧ (∀ u ∈ loggedFailures (process_search_results_async 1 (fun _ => 1) [0, 1])
        (fun i => i == 1), (fun i => i == 1) u = true ∧ u ∈ [0, 1])
  ∧ (∀ u ∈ (process_search_results_async 1 (fun _ => 1) [0, 1]).final_futures,
        (fun i => i == 1) u = true →
        u ∈ loggedFailures (process_search_results_async 1 (fun _ => 1) [0, 1])
          (fun i => i == 1)) :=
  dispatch_failure_logging 1 (fun _ => 1) [0, 1] (fun i => i == 1)

-- ## The File Transfer Manager: `download_file`

/-- The characters strictly before the last `/` of the list, or `none` when no
`/` occurs. -/
def beforeLastSlash : List Char → Option (List Char)
  | [] => none
  | c :: rest =>
    match beforeLastSlash rest with
    | some tail => some (c :: tail)
    | none => if c == '/' then some [] else none

/-- `os.path.dirname` (POSIX), as used by `download_file`: the part of the
path before its last `/`, or `""` when there is none.  (Root-anchored corner
cases like `dirname "/a" = "/"` and repeated slashes are simplified; both
sides of the guard `len < 5` are unaffected for the paths of interest.) -/
def dirname (p : String) : String :=
  match beforeLastSlash p.toList with
  | some pre => String.mk pre
  | none => ""

/-- The fields of the API's file descriptor that `download_file` reads. -/
structure ApiFileObj where
  etag : String
  downloadUrl : String

/-- The local filesystem as `download_file` observes it: `os.path.exists`,
`os.path.isfile`, and `rsxml.calculate_etag` (the local checksum). -/
structure LocalFs where
  path_exists : String → Bool
  is_file : String → Bool
  calculate_etag : String → String

/-- How one `download_file` call ends: the short-directory guard raised
`RiverscapesAPIException`; the remote content was streamed (returned `True`;
`created_dirs` records whether missing parent directories were created
first); or the transfer was skipped (returned `False`, zero bytes moved). -/
inductive DownloadOutcome where
  | invalidPath
  | downloaded (created_dirs : Bool)
  | skipped
deriving Repr, DecidableEq

/-- `RiverscapesAPI.download_file`: checksum-aware conditional download.
Computes `file_is_there` and `etag_match`, rejects a parent-directory string
shorter than 5 characters, creates missing parent directories, then either
streams the remote file (`force`, missing file, or checksum mismatch) or
skips. -/
def download_file (fs : LocalFs) (api_file_obj : ApiFileObj)
    (local_path : String) (force : Bool) : DownloadOutcome :=
  let file_is_there := fs.path_exists local_path && fs.is_file local_path
  let etag_match := file_is_there
    && (fs.calculate_etag local_path == api_file_obj.etag)
  let file_directory := dirname local_path
  if file_directory.length < 5 then .invalidPath
  else
    let created_dirs := !fs.path_exists file_directory
    if force || !file_is_there || !etag_match then .downloaded created_dirs
    else .skipped

/-- Counterexample to C10 as stated ("for every descriptor and local path
where the local file exists, its checksum matches, and force is false, the
call skips the transfer"): at `local_path = "ab/c.txt"` the file exists and
its checksum matches the descriptor's, yet the call raises
`RiverscapesAPIException` — the parent-directory string `"ab"` fails the
`len < 5` guard before the skip logic is ever reached. -/
theorem download_file_short_path_raises :
    download_file
      ⟨fun p => p == "ab/c.txt", fun p => p == "ab/c.txt", fun _ => "E1"⟩
      ⟨"E1", "https://signed.example"⟩ "ab/c.txt" false
      = DownloadOutcome.invalidPath
  ∧ DownloadOutcome.invalidPath ≠ DownloadOutcome.skipped := by
  refine ⟨by rfl, by decide⟩

/-- C10 as amended: restricted to destinations whose parent-directory string
has at least 5 characters (shorter ones raise first), `download_file` skips —
zero bytes, local file untouched — exactly when the file exists, its computed
checksum equals the descriptor's, and `force` is false; with `force` set, with
the file missing, or with a checksum mismatch it streams the remote content,
creating missing parent directories first. -/
theorem download_file_checksum_skip
    (fs : LocalFs) (api_file_obj : ApiFileObj) (local_path : String)
    (force : Bool) (hdir : 5 ≤ (dirname local_path).length) :
    ((fs.path_exists local_path && fs.is_file local_path) = true →
      (fs.calculate_etag local_path == api_file_obj.etag) = true →
      force = false →
      download_file fs api_file_obj local_path force = .skipped)
  ∧ (force = true →
      download_file fs api_file_obj local_path force
        = .downloaded (!fs.path_exists (dirname local_path)))
  ∧ ((fs.path_exists local_path && fs.is_file local_path) = false →
      download_file fs api_file_obj local_path force
        = .downloaded (!fs.path_exists (dirname local_path)))
  ∧ ((fs.calculate_etag local_path == api_file_obj.etag) = false →
      download_file fs api_file_obj local_path force
        = .downloaded (!fs.path_exists (dirname local_path))) := by
  have hguard : ¬ (dirname local_path).length < 5 := by omega
  refine ⟨?_, ?_, ?_, ?_⟩
  · intro hthere heq hforce
    rw [download_file, if_neg hguard]
    dsimp only
    rw [hthere, heq, hforce]
    rfl
  · intro hforce
    rw [download_file, if_neg hguard]
    dsimp only
    rw [hforce]
    rfl
  · intro hthere
    rw [download_file, if_neg hguard]
    dsimp only
    rw [hthere]
    simp
  · intro heq
    rw [download_file, if_neg hguard]
    dsimp only
    rw [heq]
    cases hthere : (fs.path_exists local_path && fs.is_file local_path) <;> simp

/-- Witness for the amended C10: with parent directory `"data/dir"` (length 8)
an existing, checksum-matching file is skipped when `force` is false, and
re-downloaded when `force` is true. -/
theorem download_file_checksum_skip_witness :
    download_file
      ⟨fun p => p == "data/dir/c.txt", fun p => p == "data/dir/c.txt",
        fun _ => "E1"⟩
      ⟨"E1", "https://signed.example"⟩ "data/dir/c.txt" false
      = DownloadOutcome.skipped
  ∧ download_file
      ⟨fun p => p == "data/dir/c.txt", fun p => p == "data/dir/c.txt",
        fun _ => "E1"⟩
      ⟨"E1", "https://signed.example"⟩ "data/dir/c.txt" true
      = DownloadOutcome.downloaded true :=
  ⟨(download_file_checksum_skip
      ⟨fun p => p == "data/dir/c.txt", fun p => p == "data/dir/c.txt",
        fun _ => "E1"⟩
      ⟨"E1", "https://signed.example"⟩ "data/dir/c.txt" false
      (by decide)).1 (by decide) (by decide) rfl,
   (download_file_checksum_skip
      ⟨fun p => p == "data/dir/c.txt", fun p => p == "data/dir/c.txt",
        fun _ => "E1"⟩
      ⟨"E1", "https://signed.example"⟩ "data/dir/c.txt" true
      (by decide)).2.1 rfl⟩
